import Mathlib

/-!
Shallow embedding of the Whispr server-side session and relay engine:
the room ledger (`src/server/roomManager.ts`), the validation helpers
(`src/server/lib/validate.ts`), the join-room handler
(`src/server/index.ts`), the sliding-window rate limiter (listed in
`src/README.md`) and the CAPTCHA store (`src/server/lib/captchaStore.ts`).

JavaScript `Map`s (insertion-ordered, unique keys) are modelled as
association lists; `Date.now()` values are passed in explicitly as `Int`
arguments; the HMAC token derivation is abstracted as a function
parameter `genToken : String → String` since its output is opaque to all
of the ledger logic.
-/

/-! ## JavaScript string primitives -/

/-- Characters treated as whitespace by JavaScript `String.prototype.trim`:
the WhiteSpace production (tab, vertical tab, form feed, space, NBSP,
BOM, the Unicode Zs space separators) plus the LineTerminator production
(LF, CR, LS, PS). -/
def jsIsWhitespace (c : Char) : Bool :=
  c.toNat = 9 || c.toNat = 10 || c.toNat = 11 || c.toNat = 12 || c.toNat = 13 ||
  c.toNat = 32 || c.toNat = 160 || c.toNat = 0x1680 ||
  (0x2000 ≤ c.toNat && c.toNat ≤ 0x200A) ||
  c.toNat = 0x2028 || c.toNat = 0x2029 || c.toNat = 0x202F ||
  c.toNat = 0x205F || c.toNat = 0x3000 || c.toNat = 0xFEFF

/-- JavaScript `s.trim()`: strip leading and trailing whitespace. -/
def jsTrim (s : String) : String :=
  String.mk (((s.toList.dropWhile jsIsWhitespace).reverse.dropWhile jsIsWhitespace).reverse)

/-- JavaScript `s.toLowerCase()` restricted to the ASCII range used by this
code base (room tokens and CAPTCHA answers are ASCII alphanumerics). -/
def jsToLower (s : String) : String :=
  String.mk (s.toList.map Char.toLower)

/-! ## src/server/lib/validate.ts -/

/-- A character matched by the class `[A-Za-z0-9_-]` of `ROOM_ID_REGEX`. -/
def isRoomIdChar (c : Char) : Bool :=
  ('A' ≤ c && c ≤ 'Z') || ('a' ≤ c && c ≤ 'z') || ('0' ≤ c && c ≤ '9') ||
  c = '_' || c = '-'

/-- `isValidRoomId`: the room id matches `^[A-Za-z0-9_-]{4,16}$`
(`src/server/lib/validate.ts` line 8, 13-15). -/
def isValidRoomId (roomId : String) : Bool :=
  decide (4 ≤ roomId.length) && decide (roomId.length ≤ 16) &&
  roomId.toList.all isRoomIdChar

/-- `isValidName`: the trimmed name has length between 1 and `NAME_MAX` = 24
(`src/server/lib/validate.ts` lines 17-23). -/
def isValidName (name : String) : Bool :=
  decide (1 ≤ (jsTrim name).length) && decide ((jsTrim name).length ≤ 24)

/-- `isValidTimestamp`: a non-number is rejected; a number `ts` is accepted
iff `ts > now - 300000 && ts < now + 30000`
(`src/server/lib/validate.ts` lines 43-48). `none` stands for a payload
field whose `typeof` is not `"number"`. -/
def isValidTimestamp (ts : Option Int) (now : Int) : Bool :=
  match ts with
  | none => false
  | some t => decide (now - 300000 < t) && decide (t < now + 30000)

/-- A character matched by `[\x00-\x1F\x7F]`, the class stripped by
`sanitizeName`. -/
def isStrippedControl (c : Char) : Bool :=
  c.toNat ≤ 0x1F || c.toNat = 0x7F

/-- `sanitizeName`: strip control characters, trim, truncate to 24
(`src/server/lib/validate.ts` lines 51-53). -/
def sanitizeName (name : String) : String :=
  (jsTrim (String.mk (name.toList.filter (fun c => !(isStrippedControl c))))).take 24

/-! ## src/server/roomManager.ts — data model -/

/-- `RoomUser` (`src/server/roomManager.ts` lines 13-16). -/
structure RoomUser where
  socketId : String
  name : String
  deriving Repr, DecidableEq

/-- `Room` (`src/server/roomManager.ts` lines 18-23). -/
structure Room where
  users : List RoomUser
  token : String
  createdAt : Int
  lastActivity : Int
  deriving Repr, DecidableEq

/-- The `rooms : Map<string, Room>` of `RoomManager`, as an insertion-ordered
association list. -/
abbrev Ledger : Type := List (String × Room)

/-- `this.rooms.get(roomId)`: the entry at the (unique) matching key. -/
def lookupRoom : Ledger → String → Option Room
  | [], _ => none
  | p :: rest, roomId => if p.1 == roomId then some p.2 else lookupRoom rest roomId

/-- `this.rooms.set(key, room)` on a key already present: replace the value
at that key, preserving iteration order. -/
def setKey : Ledger → String → Room → Ledger
  | [], _, _ => []
  | p :: rest, roomId, room =>
    if p.1 == roomId then (roomId, room) :: rest else p :: setKey rest roomId room

/-- `this.rooms.delete(roomId)`. -/
def destroyRoom (s : Ledger) (roomId : String) : Ledger :=
  List.filter (fun p => !(p.1 == roomId)) s

/-! ## src/server/roomManager.ts — operations -/

/-- The result record of `createOrJoin`. -/
structure JoinOutcome where
  success : Bool
  users : List RoomUser
  token : String
  deriving Repr, DecidableEq

/-- The in-place mutation `existing.name = name` performed on the first user
found by `room.users.find((u) => u.socketId === socketId)`. -/
def updateFirstName : List RoomUser → String → String → List RoomUser
  | [], _, _ => []
  | u :: us, socketId, name =>
    if u.socketId == socketId then { u with name := name } :: us
    else u :: updateFirstName us socketId name

/-- `RoomManager.createOrJoin` (`src/server/roomManager.ts` lines 59-95).
`genToken` abstracts `generateToken` (HMAC of the room id under the boot
secret); `now` abstracts `Date.now()`; `MAX_USERS` = 2. -/
def createOrJoin (genToken : String → String) (s : Ledger)
    (roomId socketId name : String) (now : Int) : JoinOutcome × Ledger :=
  match lookupRoom s roomId with
  | none =>
    -- first user — create room
    let serverToken := genToken roomId
    let room : Room :=
      { users := [{ socketId := socketId, name := name }],
        token := serverToken, createdAt := now, lastActivity := now }
    ({ success := true, users := room.users, token := serverToken }, s ++ [(roomId, room)])
  | some room =>
    if room.users.any (fun u => u.socketId == socketId) then
      -- reconnect — same socket already in room
      let users := updateFirstName room.users socketId name
      ({ success := true, users := users, token := room.token },
       setKey s roomId { room with users := users, lastActivity := now })
    else if 2 ≤ room.users.length then
      -- room full
      ({ success := false, users := room.users, token := room.token }, s)
    else
      let users := room.users ++ [{ socketId := socketId, name := name }]
      ({ success := true, users := users, token := room.token },
       setKey s roomId { room with users := users, lastActivity := now })

/-- `RoomManager.touch` (`src/server/roomManager.ts` lines 98-101). -/
def touch (s : Ledger) (roomId : String) (now : Int) : Ledger :=
  match lookupRoom s roomId with
  | none => s
  | some room => setKey s roomId { room with lastActivity := now }

/-- `room.users.findIndex` followed by `room.users.splice(idx, 1)`: removes
the first user with the given socket id, returning it and the remaining
list, or `none` when no user matches. -/
def removeUser : List RoomUser → String → Option (RoomUser × List RoomUser)
  | [], _ => none
  | u :: us, socketId =>
    if u.socketId == socketId then some (u, us)
    else
      match removeUser us socketId with
      | none => none
      | some (v, us') => some (v, u :: us')

/-- `RoomManager.leave` (`src/server/roomManager.ts` lines 104-117): scan
rooms in iteration order for the first containing the socket, splice that
user out, delete the room when it becomes empty, and return the vacated
room id and user name. -/
def leave : Ledger → String → Option (String × String) × Ledger
  | [], _ => (none, [])
  | (roomId, room) :: rest, socketId =>
    match removeUser room.users socketId with
    | some (u, users') =>
      if users'.isEmpty then (some (roomId, u.name), rest)
      else (some (roomId, u.name), (roomId, { room with users := users' }) :: rest)
    | none =>
      let r := leave rest socketId
      (r.1, (roomId, room) :: r.2)

/-- `RoomManager.isMember` (`src/server/roomManager.ts` lines 125-128). -/
def isMember (s : Ledger) (roomId socketId : String) : Bool :=
  match lookupRoom s roomId with
  | none => false
  | some room => room.users.any (fun u => u.socketId == socketId)

/-- `RoomManager.sweep` (`src/server/roomManager.ts` lines 131-138): delete
every room with `now - lastActivity > ROOM_TTL_MS` (1 hour). -/
def sweep (s : Ledger) (now : Int) : Ledger :=
  List.filter (fun p => !(decide (3600000 < now - p.2.lastActivity))) s

/-- The charCode XOR-accumulate loop of `RoomManager.verifyToken`
(`src/server/roomManager.ts` lines 48-56): length check, then OR together
the XORs of corresponding code units, succeeding iff the accumulator is 0. -/
def constantTimeEq (expected token : String) : Bool :=
  if expected.length ≠ token.length then false
  else
    ((List.zipWith (fun a b => a.toNat ^^^ b.toNat) expected.toList token.toList).foldl
      (fun acc x => acc ||| x) 0) == 0

/-- `RoomManager.verifyToken`: compare the supplied token against
`generateToken(roomId)` with the constant-time loop. -/
def verifyToken (genToken : String → String) (roomId token : String) : Bool :=
  constantTimeEq (genToken roomId) token

/-- Ledger states reachable from the empty room map through the
`RoomManager` operations. -/
inductive Reachable : Ledger → Prop where
  | empty : Reachable []
  | step_join (g : String → String) (roomId socketId name : String) (now : Int) {s : Ledger} :
      Reachable s → Reachable (createOrJoin g s roomId socketId name now).2
  | step_touch (roomId : String) (now : Int) {s : Ledger} :
      Reachable s → Reachable (touch s roomId now)
  | step_leave (socketId : String) {s : Ledger} :
      Reachable s → Reachable (leave s socketId).2
  | step_destroy (roomId : String) {s : Ledger} :
      Reachable s → Reachable (destroyRoom s roomId)
  | step_sweep (now : Int) {s : Ledger} :
      Reachable s → Reachable (sweep s now)

/-- The two-member bound of the room ledger: every room holds at most two
users. -/
def usersBound (s : Ledger) : Prop :=
  ∀ p ∈ s, p.2.users.length ≤ 2

instance (s : Ledger) : Decidable (usersBound s) :=
  inferInstanceAs (Decidable (∀ p ∈ s, p.2.users.length ≤ 2))

/-! ## src/server/index.ts — join-room handler -/

/-- The messages the join-room handler can emit back to the joining socket. -/
inductive JoinReply where
  | errorMsg (message : String)
  | roomFull
  | joined (token : String) (peerName : Option String)
  deriving Repr, DecidableEq

/-- The `join-room` handler (`src/server/index.ts` lines 103-135): validate
the room id and name (emitting an error message on failure), sanitize the
name, call `createOrJoin`, emit `room-full` on failure, and otherwise emit
`joined` carrying the token and `existingPeer?.name || null` (so an empty
peer name is also reported as `null`). -/
def joinRoomHandler (genToken : String → String) (s : Ledger)
    (socketId roomId name : String) (now : Int) : JoinReply × Ledger :=
  if !(isValidRoomId roomId) then (.errorMsg "Invalid room ID", s)
  else if !(isValidName name) then (.errorMsg "Invalid name", s)
  else
    let cleanName := sanitizeName name
    let r := createOrJoin genToken s roomId socketId cleanName now
    if !r.1.success then (.roomFull, r.2)
    else
      let existingPeer := r.1.users.find? (fun u => !(u.socketId == socketId))
      let peerName : Option String :=
        match existingPeer with
        | none => none
        | some u => if u.name = "" then none else some u.name
      (.joined r.1.token peerName, r.2)

/-! ## RateLimiter (source listed in src/README.md) -/

/-- `RateLimiter.check` for a single connection's entry (`src/README.md`
RateLimiter listing): drop timestamps outside the 10-second window, deny
when 30 or more remain, otherwise record `now` and allow. Returns the
allow flag and the updated timestamp list. -/
def rateCheck (timestamps : List Int) (now : Int) : Bool × List Int :=
  let ts := timestamps.filter (fun t => now - t < 10000)
  if 30 ≤ ts.length then (false, ts)
  else (true, ts ++ [now])

/-- Fold a sequence of `check` calls at the given times over an entry. -/
def runCalls (timestamps : List Int) : List Int → List Bool × List Int
  | [] => ([], timestamps)
  | t :: rest =>
    let r := rateCheck timestamps t
    let r' := runCalls r.2 rest
    (r.1 :: r'.1, r'.2)

/-! ## src/server/lib/captchaStore.ts -/

/-- `CaptchaEntry` (`src/server/lib/captchaStore.ts` lines 13-16). -/
structure CaptchaEntry where
  answer : String
  expiresAt : Int
  deriving Repr, DecidableEq

/-- The captcha `store : Map<string, CaptchaEntry>` as an association list. -/
abbrev CaptchaLedger : Type := List (String × CaptchaEntry)

/-- `this.store.get(id)`: the entry at the (unique) matching key. -/
def captchaLookup : CaptchaLedger → String → Option CaptchaEntry
  | [], _ => none
  | p :: rest, id => if p.1 == id then some p.2 else captchaLookup rest id

/-- `this.store.delete(id)`. -/
def captchaErase (s : CaptchaLedger) (id : String) : CaptchaLedger :=
  List.filter (fun p => !(p.1 == id)) s

/-- `CaptchaStore.verify` (`src/server/lib/captchaStore.ts` lines 56-67):
look the id up, return false when absent; otherwise delete the entry
unconditionally, return false when expired, and otherwise compare the
stored answer with the trimmed supplied answer case-insensitively. -/
def captchaVerify (s : CaptchaLedger) (id answer : String) (now : Int) :
    Bool × CaptchaLedger :=
  match captchaLookup s id with
  | none => (false, s)
  | some entry =>
    let s' := captchaErase s id
    if entry.expiresAt < now then (false, s')
    else (jsToLower entry.answer == jsToLower (jsTrim answer), s')


/-! ## Helper lemmas about the ledger operations -/

lemma mem_setKey {s : Ledger} {k : String} {v : Room} {p : String × Room}
    (h : p ∈ setKey s k v) : p = (k, v) ∨ p ∈ s := by
  induction s with
  | nil => simp [setKey] at h
  | cons q rest ih =>
    by_cases hq : (q.1 == k) = true
    · simp [setKey, hq] at h
      rcases h with h | h
      · left; simp [h]
      · right; simp [h]
    · simp [setKey, hq] at h
      rcases h with h | h
      · right; simp [h]
      · rcases ih h with h' | h'
        · left; exact h'
        · right; simp [h']

lemma lookupRoom_mem {s : Ledger} {roomId : String} {room : Room}
    (h : lookupRoom s roomId = some room) : (roomId, room) ∈ s := by
  induction s with
  | nil => simp [lookupRoom] at h
  | cons q rest ih =>
    by_cases hq : (q.1 == roomId) = true
    · simp only [lookupRoom, hq, if_true, Option.some.injEq] at h
      have h1 : q.1 = roomId := by simpa using hq
      cases q
      simp_all
    · simp only [lookupRoom, hq, Bool.false_eq_true, if_false] at h
      exact List.mem_cons_of_mem _ (ih h)

lemma updateFirstName_length (us : List RoomUser) (socketId name : String) :
    (updateFirstName us socketId name).length = us.length := by
  induction us with
  | nil => rfl
  | cons u rest ih =>
    by_cases hu : (u.socketId == socketId) = true
    · simp [updateFirstName, hu]
    · simp [updateFirstName, hu, ih]

lemma removeUser_length {us : List RoomUser} {socketId : String}
    {u : RoomUser} {us' : List RoomUser}
    (h : removeUser us socketId = some (u, us')) : us'.length + 1 = us.length := by
  induction us generalizing u us' with
  | nil => simp [removeUser] at h
  | cons v vs ih =>
    by_cases hv : (v.socketId == socketId) = true
    · simp [removeUser, hv] at h
      obtain ⟨_, hus⟩ := h
      simp [← hus]
    · simp [removeUser, hv] at h
      cases hrm : removeUser vs socketId with
      | none => rw [hrm] at h; simp at h
      | some p =>
        rw [hrm] at h
        obtain ⟨w, ws⟩ := p
        simp at h
        obtain ⟨_, hus⟩ := h
        have := ih hrm
        simp [← hus]
        omega

lemma usersBound_leave {s : Ledger} {socketId : String}
    (h : usersBound s) : usersBound (leave s socketId).2 := by
  induction s with
  | nil => intro p hp; simp [leave] at hp
  | cons q rest ih =>
    obtain ⟨roomId, room⟩ := q
    have hhead : room.users.length ≤ 2 := h (roomId, room) (by simp)
    have hrest : usersBound rest := fun p hp => h p (by simp [hp])
    intro p hp
    unfold leave at hp
    cases hrm : removeUser room.users socketId with
    | none =>
      rw [hrm] at hp
      simp at hp
      rcases hp with hp | hp
      · simp [hp]; exact hhead
      · exact ih hrest p hp
    | some r =>
      obtain ⟨u, users'⟩ := r
      rw [hrm] at hp
      by_cases hemp : users'.isEmpty
      · simp [hemp] at hp
        exact hrest p hp
      · simp [hemp] at hp
        rcases hp with hp | hp
        · have := removeUser_length hrm
          simp [hp]
          omega
        · exact hrest p hp

/-! ## C1 — every reachable ledger state has at most 2 users per room -/

/-- C1: for every reachable ledger state, every room registers at most two
connections — `createOrJoin`, `touch`, `leave`, `destroyRoom` and `sweep`
all preserve the bound `users.length ≤ 2`, so a room never holds 3 or more
members. -/
theorem reachable_users_le_two {s : Ledger} (h : Reachable s) : usersBound s := by
  induction h with
  | empty => intro p hp; simp at hp
  | step_join g roomId socketId name now hs ih =>
    rename_i s'
    intro p hp
    unfold createOrJoin at hp
    cases hlook : lookupRoom s' roomId with
    | none =>
      rw [hlook] at hp
      simp at hp
      rcases hp with hp | hp
      · exact ih p hp
      · simp [hp]
    | some room =>
      rw [hlook] at hp
      have hroom : room.users.length ≤ 2 := ih (roomId, room) (lookupRoom_mem hlook)
      by_cases hany : room.users.any (fun u => u.socketId == socketId) = true
      · simp only [hany, if_true] at hp
        rcases mem_setKey hp with hp' | hp'
        · simp [hp', updateFirstName_length, hroom]
        · exact ih p hp'
      · simp only [hany] at hp
        by_cases hfull : 2 ≤ room.users.length
        · simp only [hfull, if_true, if_false, Bool.false_eq_true] at hp
          exact ih p hp
        · simp only [hfull, if_false, Bool.false_eq_true] at hp
          rcases mem_setKey hp with hp' | hp'
          · simp [hp']
            omega
          · exact ih p hp'
  | step_touch roomId now hs ih =>
    rename_i s'
    intro p hp
    unfold touch at hp
    cases hlook : lookupRoom s' roomId with
    | none => rw [hlook] at hp; exact ih p hp
    | some room =>
      rw [hlook] at hp
      rcases mem_setKey hp with hp' | hp'
      · have hroom : room.users.length ≤ 2 := ih (roomId, room) (lookupRoom_mem hlook)
        simp [hp', hroom]
      · exact ih p hp'
  | step_leave socketId hs ih => exact usersBound_leave ih
  | step_destroy roomId hs ih =>
    intro p hp
    exact ih p (List.mem_of_mem_filter hp)
  | step_sweep now hs ih =>
    intro p hp
    exact ih p (List.mem_of_mem_filter hp)

/-- Witness for C1: the bound holds at the concrete reachable state built by
creating a room and joining a second user. -/
theorem reachable_users_le_two_witness :
    usersBound (createOrJoin (fun _ => "t")
      (createOrJoin (fun _ => "t") [] "roomaaaa" "sockA" "alice" 0).2
      "roomaaaa" "sockB" "bob" 1).2 :=
  reachable_users_le_two
    (Reachable.step_join (fun _ => "t") "roomaaaa" "sockB" "bob" 1
      (Reachable.step_join (fun _ => "t") "roomaaaa" "sockA" "alice" 0 Reachable.empty))

/-! ## C2 — createOrJoin on a fresh room and on a full room -/

lemma lookupRoom_append_none {s : Ledger} {roomId : String}
    (h : lookupRoom s roomId = none) (l : Ledger) :
    lookupRoom (s ++ l) roomId = lookupRoom l roomId := by
  induction s with
  | nil => rfl
  | cons q rest ih =>
    by_cases hq : (q.1 == roomId) = true
    · simp [lookupRoom, hq] at h
    · simp only [lookupRoom, hq, Bool.false_eq_true, if_false] at h
      simp only [List.cons_append, lookupRoom, hq, Bool.false_eq_true, if_false]
      exact ih h

/-- C2: `createOrJoin` on a room id absent from the ledger reports success,
creates the room with the caller as sole member and the freshly derived
token; `createOrJoin` on a room that already has two members, called by a
third distinct connection, reports failure and returns the ledger
unchanged (membership and token untouched). -/
theorem createOrJoin_fresh_and_full (genToken : String → String) (s : Ledger)
    (roomId socketId name : String) (now : Int) :
    (lookupRoom s roomId = none →
      (createOrJoin genToken s roomId socketId name now).1.success = true
      ∧ (createOrJoin genToken s roomId socketId name now).1.users =
          [{ socketId := socketId, name := name }]
      ∧ (createOrJoin genToken s roomId socketId name now).1.token = genToken roomId
      ∧ lookupRoom (createOrJoin genToken s roomId socketId name now).2 roomId =
          some { users := [{ socketId := socketId, name := name }],
                 token := genToken roomId, createdAt := now, lastActivity := now })
    ∧ (∀ room : Room, lookupRoom s roomId = some room →
        room.users.length = 2 →
        (∀ u ∈ room.users, u.socketId ≠ socketId) →
        (createOrJoin genToken s roomId socketId name now).1.success = false
        ∧ (createOrJoin genToken s roomId socketId name now).2 = s) := by
  constructor
  · intro hnone
    simp only [createOrJoin, hnone]
    refine ⟨by trivial, by trivial, by trivial, ?_⟩
    rw [lookupRoom_append_none hnone]
    simp [lookupRoom]
  · intro room hsome hlen hdistinct
    have hany : room.users.any (fun u => u.socketId == socketId) = false := by
      simp only [List.any_eq_false]
      intro u hu
      simpa using hdistinct u hu
    simp [createOrJoin, hsome, hany, hlen]

/-- Witness for C2: concrete fresh-room creation and concrete rejection of a
third connection on a full room. -/
theorem createOrJoin_fresh_and_full_witness :
    ((createOrJoin (fun _ => "t") [] "roomaaaa" "sockA" "alice" 0).1.success = true
      ∧ (createOrJoin (fun _ => "t") [] "roomaaaa" "sockA" "alice" 0).1.users =
          [{ socketId := "sockA", name := "alice" }]
      ∧ (createOrJoin (fun _ => "t") [] "roomaaaa" "sockA" "alice" 0).1.token = "t"
      ∧ lookupRoom (createOrJoin (fun _ => "t") [] "roomaaaa" "sockA" "alice" 0).2 "roomaaaa" =
          some { users := [{ socketId := "sockA", name := "alice" }],
                 token := "t", createdAt := 0, lastActivity := 0 })
    ∧ ((createOrJoin (fun _ => "t")
          [("roomaaaa", { users := [{ socketId := "sockA", name := "alice" },
                                    { socketId := "sockB", name := "bob" }],
                          token := "t", createdAt := 0, lastActivity := 0 })]
          "roomaaaa" "sockC" "carol" 5).1.success = false
      ∧ (createOrJoin (fun _ => "t")
          [("roomaaaa", { users := [{ socketId := "sockA", name := "alice" },
                                    { socketId := "sockB", name := "bob" }],
                          token := "t", createdAt := 0, lastActivity := 0 })]
          "roomaaaa" "sockC" "carol" 5).2 =
          [("roomaaaa", { users := [{ socketId := "sockA", name := "alice" },
                                    { socketId := "sockB", name := "bob" }],
                          token := "t", createdAt := 0, lastActivity := 0 })]) :=
  ⟨(createOrJoin_fresh_and_full (fun _ => "t") [] "roomaaaa" "sockA" "alice" 0).1 (by decide),
   (createOrJoin_fresh_and_full (fun _ => "t")
      [("roomaaaa", { users := [{ socketId := "sockA", name := "alice" },
                                { socketId := "sockB", name := "bob" }],
                      token := "t", createdAt := 0, lastActivity := 0 })]
      "roomaaaa" "sockC" "carol" 5).2
      { users := [{ socketId := "sockA", name := "alice" },
                  { socketId := "sockB", name := "bob" }],
        token := "t", createdAt := 0, lastActivity := 0 }
      (by decide) (by decide) (by decide)⟩

/-! ## C3 — sliding-window rate limiter -/

lemma length_filter_lt_of_mem_not {α : Type} {l : List α} {p : α → Bool} {x : α}
    (hx : x ∈ l) (hpx : p x = false) : (l.filter p).length < l.length := by
  induction l with
  | nil => simp at hx
  | cons a as ih =>
    rcases List.mem_cons.mp hx with h | h
    · subst h
      simp only [List.filter_cons, hpx, Bool.false_eq_true, if_false, List.length_cons]
      exact Nat.lt_succ_of_le (List.length_filter_le p as)
    · cases hpa : p a
      · simp only [List.filter_cons, hpa, Bool.false_eq_true, if_false, List.length_cons]
        exact Nat.lt_succ_of_le (List.length_filter_le p as)
      · simp only [List.filter_cons, hpa, if_true, List.length_cons]
        exact Nat.succ_lt_succ (ih h)

lemma map_range'_denied (a n : Nat) (h : 30 ≤ a) :
    (List.range' a n).map (fun k => decide (k < 30)) = List.replicate n false := by
  induction n generalizing a with
  | zero => simp
  | succ n ih =>
    rw [List.range'_succ]
    simp only [List.map_cons, List.replicate_succ]
    have h1 : decide (a < 30) = false := by simp; omega
    rw [h1, ih (a + 1) (by omega)]

lemma runCalls_within_window (times : List Int) :
    ∀ s : List Int,
      (∀ u ∈ s, ∀ v ∈ times, v - u < 10000) →
      (∀ u ∈ times, ∀ v ∈ times, v - u < 10000) →
      (runCalls s times).1 =
        (List.range' s.length times.length).map (fun k => decide (k < 30)) := by
  induction times with
  | nil => intro s _ _; simp [runCalls]
  | cons t rest ih =>
    intro s h1 h2
    have hfilt : s.filter (fun u => decide (t - u < 10000)) = s := by
      rw [List.filter_eq_self]
      intro a ha
      simp only [decide_eq_true_eq]
      exact h1 a ha t (by simp)
    have hrc : rateCheck s t =
        if 30 ≤ s.length then (false, s) else (true, s ++ [t]) := by
      unfold rateCheck
      rw [hfilt]
    have h1rest : ∀ u ∈ s, ∀ v ∈ rest, v - u < 10000 := by
      intro u hu v hv
      exact h1 u hu v (by simp [hv])
    have h2rest : ∀ u ∈ rest, ∀ v ∈ rest, v - u < 10000 := by
      intro u hu v hv
      exact h2 u (by simp [hu]) v (by simp [hv])
    by_cases hlen : 30 ≤ s.length
    · unfold runCalls
      rw [hrc]
      simp only [hlen, if_true]
      rw [ih s h1rest h2rest]
      rw [List.length_cons, List.range'_succ, List.map_cons]
      rw [map_range'_denied s.length rest.length hlen,
          map_range'_denied (s.length + 1) rest.length (by omega)]
      have : decide (s.length < 30) = false := by simp; omega
      rw [this]
    · unfold runCalls
      rw [hrc]
      simp only [hlen, if_false]
      have h1app : ∀ u ∈ s ++ [t], ∀ v ∈ rest, v - u < 10000 := by
        intro u hu v hv
        rcases List.mem_append.mp hu with hu' | hu'
        · exact h1 u hu' v (by simp [hv])
        · simp at hu'
          subst hu'
          exact h2 u (by simp) v (by simp [hv])
      rw [ih (s ++ [t]) h1app h2rest]
      rw [List.length_cons, List.range'_succ, List.map_cons]
      simp only [List.length_append, List.length_cons, List.length_nil]
      have : decide (s.length < 30) = true := by simp; omega
      rw [this]

/-- C3: the sliding-window limiter allows a call iff fewer than 30 recorded
timestamps survive the 10-second window (and records the call exactly when
allowed); within any single rolling window the first 30 calls are allowed
and the 31st is denied; and once the window has slid fully past some
recorded call, a subsequent call is allowed again. -/
theorem rateLimiter_sliding_window :
    (∀ times : List Int, times.length = 31 →
      (∀ u ∈ times, ∀ v ∈ times, v - u < 10000) →
      (runCalls [] times).1 = List.replicate 30 true ++ [false])
    ∧ (∀ (s : List Int) (now : Int), s.length ≤ 30 →
        (∃ t ∈ s, 10000 ≤ now - t) → (rateCheck s now).1 = true)
    ∧ (∀ (s : List Int) (now : Int),
        ((rateCheck s now).1 = true ↔
          (s.filter (fun t => now - t < 10000)).length < 30))
    ∧ (∀ (s : List Int) (now : Int), (rateCheck s now).1 = false →
        (rateCheck s now).2 = s.filter (fun t => now - t < 10000)) := by
  refine ⟨?_, ?_, ?_, ?_⟩
  · intro times h31 hclose
    rw [runCalls_within_window times [] (by simp) hclose, h31]
    decide
  · intro s now hlen ht
    obtain ⟨t, ht, hexp⟩ := ht
    have hlt : (s.filter (fun u => decide (now - u < 10000))).length < s.length :=
      length_filter_lt_of_mem_not ht (by simp; omega)
    unfold rateCheck
    have : ¬ (30 ≤ (s.filter (fun u => decide (now - u < 10000))).length) := by omega
    simp only [this, if_false]
  · intro s now
    unfold rateCheck
    by_cases h : 30 ≤ (s.filter (fun t => decide (now - t < 10000))).length
    · simp only [h, if_true]
      constructor
      · intro hc; simp at hc
      · intro hc; omega
    · simp only [h, if_false]
      constructor
      · intro _; omega
      · intro _; trivial
  · intro s now h
    unfold rateCheck at *
    by_cases hc : 30 ≤ (s.filter (fun t => decide (now - t < 10000))).length
    · simp only [hc, if_true]
    · simp only [hc, if_false] at h
      simp at h

/-- Witness for C3: 31 calls at the same instant give 30 allows then a deny,
and a call is allowed again from a full window whose earliest entry has
aged out. -/
theorem rateLimiter_sliding_window_witness :
    (runCalls [] (List.replicate 31 0)).1 = List.replicate 30 true ++ [false]
    ∧ (rateCheck [-20000] 0).1 = true :=
  ⟨rateLimiter_sliding_window.1 (List.replicate 31 0) (by decide)
      (by
        intro u hu v hv
        rw [List.eq_of_mem_replicate hu, List.eq_of_mem_replicate hv]
        decide),
   rateLimiter_sliding_window.2.1 [-20000] 0 (by decide)
      ⟨-20000, by decide, by decide⟩⟩

/-! ## C4 — CAPTCHA verification is one-time use -/

lemma captchaLookup_erase (s : CaptchaLedger) (id : String) :
    captchaLookup (captchaErase s id) id = none := by
  induction s with
  | nil => rfl
  | cons q rest ih =>
    unfold captchaErase at *
    by_cases hq : (q.1 == id) = true
    · simp only [List.filter_cons, hq, Bool.not_true, Bool.false_eq_true, if_false]
      exact ih
    · simp only [List.filter_cons, hq, Bool.not_false, if_true]
      simp only [captchaLookup, hq, Bool.false_eq_true, if_false]
      exact ih

/-- C4: `verify` consumes the looked-up entry regardless of outcome, returns
false for an unknown id or an expired entry, and otherwise compares the
answer case-insensitively after trimming; a correct answer therefore
verifies once and any repeat attempt on the same id fails. -/
theorem captcha_verify_one_time (store : CaptchaLedger) (id answer : String) (now : Int) :
    (captchaLookup store id = none → captchaVerify store id answer now = (false, store))
    ∧ (∀ e : CaptchaEntry, captchaLookup store id = some e →
        (captchaVerify store id answer now).2 = captchaErase store id)
    ∧ (∀ e : CaptchaEntry, captchaLookup store id = some e → e.expiresAt < now →
        (captchaVerify store id answer now).1 = false)
    ∧ (∀ e : CaptchaEntry, captchaLookup store id = some e → ¬ e.expiresAt < now →
        (captchaVerify store id answer now).1 =
          (jsToLower e.answer == jsToLower (jsTrim answer)))
    ∧ (∀ e : CaptchaEntry, captchaLookup store id = some e → ¬ e.expiresAt < now →
        jsToLower e.answer = jsToLower (jsTrim answer) →
        (captchaVerify store id answer now).1 = true
        ∧ ∀ (answer2 : String) (now2 : Int),
            (captchaVerify (captchaVerify store id answer now).2 id answer2 now2).1 = false) := by
  refine ⟨?_, ?_, ?_, ?_, ?_⟩
  · intro h
    simp [captchaVerify, h]
  · intro e h
    simp only [captchaVerify, h]
    by_cases hexp : e.expiresAt < now
    · simp [hexp]
    · simp [hexp]
  · intro e h hexp
    simp [captchaVerify, h, hexp]
  · intro e h hexp
    simp [captchaVerify, h, hexp]
  · intro e h hexp hans
    constructor
    · simp [captchaVerify, h, hexp, hans]
    · intro answer2 now2
      have h2 : (captchaVerify store id answer now).2 = captchaErase store id := by
        simp only [captchaVerify, h]
        by_cases hx : e.expiresAt < now
        · simp [hx]
        · simp [hx]
      rw [h2]
      simp [captchaVerify, captchaLookup_erase]

/-- Witness for C4: a stored challenge with answer `AbC3d` verifies against
`" abc3D "` (trimmed, case-insensitive) exactly once; the second attempt
with the same id fails. -/
theorem captcha_verify_one_time_witness :
    (captchaVerify [("id1", { answer := "AbC3d", expiresAt := 1000 })] "id1" " abc3D " 500).1 = true
    ∧ (captchaVerify
        (captchaVerify [("id1", { answer := "AbC3d", expiresAt := 1000 })] "id1" " abc3D " 500).2
        "id1" " abc3D " 600).1 = false :=
  ⟨((captcha_verify_one_time [("id1", { answer := "AbC3d", expiresAt := 1000 })]
      "id1" " abc3D " 500).2.2.2.2
      { answer := "AbC3d", expiresAt := 1000 } (by decide) (by decide) (by decide)).1,
   ((captcha_verify_one_time [("id1", { answer := "AbC3d", expiresAt := 1000 })]
      "id1" " abc3D " 500).2.2.2.2
      { answer := "AbC3d", expiresAt := 1000 } (by decide) (by decide) (by decide)).2
      " abc3D " 600⟩

/-! ## C6 — token verification succeeds exactly on the derived token -/

lemma nat_or_eq_zero {a b : Nat} : a ||| b = 0 ↔ a = 0 ∧ b = 0 := by
  constructor
  · intro h
    constructor
    · apply Nat.eq_of_testBit_eq
      intro i
      have := congrArg (fun n => n.testBit i) h
      simp at this
      simp [this.1]
    · apply Nat.eq_of_testBit_eq
      intro i
      have := congrArg (fun n => n.testBit i) h
      simp at this
      simp [this.2]
  · rintro ⟨h1, h2⟩
    simp [h1, h2]

lemma foldl_or_eq_zero (l : List Nat) :
    ∀ acc : Nat, (l.foldl (fun acc x => acc ||| x) acc = 0 ↔ acc = 0 ∧ ∀ x ∈ l, x = 0) := by
  induction l with
  | nil => intro acc; simp
  | cons a as ih =>
    intro acc
    simp only [List.foldl_cons]
    rw [ih (acc ||| a)]
    rw [nat_or_eq_zero]
    constructor
    · rintro ⟨⟨h1, h2⟩, h3⟩
      exact ⟨h1, by simpa using ⟨h2, h3⟩⟩
    · rintro ⟨h1, h2⟩
      simp at h2
      exact ⟨⟨h1, h2.1⟩, h2.2⟩

lemma char_toNat_inj {a b : Char} (h : a.toNat = b.toNat) : a = b := by
  apply Char.ext
  exact UInt32.toNat.inj h

lemma zipWith_xorNat_eq_nil : ∀ (xs ys : List Char), xs.length = ys.length →
    ((∀ z ∈ List.zipWith (fun c d : Char => c.toNat ^^^ d.toNat) xs ys, z = 0) ↔ xs = ys) := by
  intro xs
  induction xs with
  | nil =>
    intro ys hlen
    have : ys = [] := by simpa using hlen.symm
    subst this
    simp
  | cons x xt ih =>
    intro ys hlen
    cases ys with
    | nil => simp at hlen
    | cons y yt =>
      simp only [List.zipWith_cons_cons, List.mem_cons, List.cons.injEq]
      constructor
      · intro h
        have hx : x.toNat ^^^ y.toNat = 0 := h _ (Or.inl rfl)
        have hxy : x = y := char_toNat_inj (Nat.xor_eq_zero.mp hx)
        have htail : xt = yt := by
          rw [← ih yt (by simpa using hlen)]
          intro z hz
          exact h z (Or.inr hz)
        exact ⟨hxy, htail⟩
      · rintro ⟨h1, h2⟩
        intro z hz
        rcases hz with hz | hz
        · rw [hz, h1, Nat.xor_self]
        · exact ((ih yt (by simpa using hlen)).mpr h2) z hz

lemma constantTimeEq_iff (a b : String) : constantTimeEq a b = true ↔ a = b := by
  unfold constantTimeEq
  by_cases hlen : a.length = b.length
  · simp only [hlen, ne_eq, not_true_eq_false, if_false, beq_iff_eq]
    rw [foldl_or_eq_zero]
    have hl : a.toList.length = b.toList.length := hlen
    constructor
    · rintro ⟨_, hall⟩
      have := (zipWith_xorNat_eq_nil a.toList b.toList hl).mp hall
      cases a
      cases b
      exact congrArg String.mk this
    · intro h
      subst h
      exact ⟨rfl, (zipWith_xorNat_eq_nil a.toList a.toList rfl).mpr rfl⟩
  · simp only [ne_eq, hlen, not_false_eq_true, if_true]
    constructor
    · intro h
      simp at h
    · intro h
      subst h
      exact absurd rfl hlen

/-- C6: `verifyToken(roomId, token)` returns true iff the supplied token
equals the token derived for the room id — the constant-time loop fails on
any length mismatch or byte mismatch and succeeds otherwise. -/
theorem verifyToken_iff_eq (genToken : String → String) (roomId token : String) :
    verifyToken genToken roomId token = true ↔ token = genToken roomId := by
  unfold verifyToken
  rw [constantTimeEq_iff]
  exact eq_comm

/-! ## C5 — room-id validation bounds -/

/-- Counterexample to C5 as stated: the room id `abcd` has length 4, outside
the claimed 8–16 bound, yet `isValidRoomId` (the regex
`^[A-Za-z0-9_-]{4,16}$`) accepts it. -/
theorem roomId_fourChars_accepted :
    isValidRoomId "abcd" = true ∧ ("abcd" : String).length = 4 := by
  decide

/-- C5 amended: a room id is accepted by join validation exactly when it is
a string of 4 to 16 characters drawn from `[A-Za-z0-9_-]`; join-room with
an invalid room id is rejected with the explicit `Invalid room ID` error
signal to the sender, leaving the ledger unchanged. -/
theorem roomId_validation_amended :
    (∀ roomId : String, isValidRoomId roomId = true ↔
      (4 ≤ roomId.length ∧ roomId.length ≤ 16 ∧ ∀ c ∈ roomId.toList, isRoomIdChar c = true))
    ∧ (∀ (genToken : String → String) (s : Ledger) (socketId roomId name : String) (now : Int),
        isValidRoomId roomId = false →
        joinRoomHandler genToken s socketId roomId name now =
          (.errorMsg "Invalid room ID", s)) := by
  constructor
  · intro roomId
    unfold isValidRoomId
    simp only [Bool.and_eq_true, decide_eq_true_eq, List.all_eq_true]
    tauto
  · intro g s socketId roomId name now h
    unfold joinRoomHandler
    simp [h]

/-- Witness for C5's amended theorem: the 3-character id `ab!` is rejected
by the join handler with the invalid-room error. -/
theorem roomId_validation_amended_witness :
    joinRoomHandler (fun _ => "t") [] "sockA" "ab!" "alice" 0 =
      (.errorMsg "Invalid room ID", []) :=
  roomId_validation_amended.2 (fun _ => "t") [] "sockA" "ab!" "alice" 0 (by decide)

/-! ## C8 — send-message timestamp window -/

/-- C8: a numeric timestamp is accepted exactly when it is less than 5
minutes in the past and less than 30 seconds in the future of server time;
non-numeric timestamps are rejected. -/
theorem timestamp_window_iff (t now : Int) :
    (isValidTimestamp (some t) now = true ↔ (now - t < 300000 ∧ t - now < 30000))
    ∧ isValidTimestamp none now = false := by
  constructor
  · unfold isValidTimestamp
    simp only [Bool.and_eq_true, decide_eq_true_eq]
    omega
  · rfl

/-! ## C9 — a valid name can sanitize to the empty string -/

set_option maxRecDepth 10000

/-- C9: there is a display name accepted by `isValidName` (for instance the
single control character `U+0001`) whose sanitization is the empty string,
so a connection can join a room with an empty stored display name. -/
theorem empty_sanitized_name_exists :
    ∃ name : String, isValidName name = true ∧ sanitizeName name = ""
      ∧ (joinRoomHandler (fun _ => "tok") [] "sockA" "roomaaaa" name 0).2 =
          [("roomaaaa", { users := [{ socketId := "sockA", name := "" }],
                          token := "tok", createdAt := 0, lastActivity := 0 })] := by
  refine ⟨String.mk [Char.ofNat 1], ?_, ?_, ?_⟩
  · decide
  · decide
  · decide

/-! ## C7 — leave removes the departing member, deleting emptied rooms -/

lemma removeUser_not_mem {us : List RoomUser} {socketId : String}
    (h : ∀ u ∈ us, u.socketId ≠ socketId) : removeUser us socketId = none := by
  induction us with
  | nil => rfl
  | cons u rest ih =>
    have hbeq : (u.socketId == socketId) = false := by
      simpa using h u (by simp)
    unfold removeUser
    rw [hbeq]
    simp only [Bool.false_eq_true, if_false]
    rw [ih (fun v hv => h v (by simp [hv]))]

lemma leave_cons_none {roomId : String} {room : Room} {rest : Ledger} {socketId : String}
    (h : removeUser room.users socketId = none) :
    leave ((roomId, room) :: rest) socketId =
      ((leave rest socketId).1, (roomId, room) :: (leave rest socketId).2) := by
  simp only [leave]
  rw [h]

lemma leave_none {s : Ledger} {socketId : String}
    (h : ∀ p ∈ s, ∀ u ∈ p.2.users, u.socketId ≠ socketId) :
    leave s socketId = (none, s) := by
  induction s with
  | nil => rfl
  | cons q rest ih =>
    obtain ⟨roomId, room⟩ := q
    have hrm := removeUser_not_mem (h (roomId, room) (by simp))
    rw [leave_cons_none hrm, ih (fun p hp => h p (by simp [hp]))]

lemma leave_append {pre : Ledger} (rest : Ledger) (socketId : String)
    (h : ∀ p ∈ pre, ∀ u ∈ p.2.users, u.socketId ≠ socketId) :
    leave (pre ++ rest) socketId =
      ((leave rest socketId).1, pre ++ (leave rest socketId).2) := by
  induction pre with
  | nil => simp
  | cons q pre' ih =>
    obtain ⟨roomId, room⟩ := q
    have hrm := removeUser_not_mem (h (roomId, room) (by simp))
    simp only [List.cons_append]
    rw [leave_cons_none hrm, ih (fun p hp => h p (by simp [hp]))]

/-- C7: `leave` on a connection in a 2-member room removes only the
departing member, keeping the room in the ledger; on a connection in a
1-member room it removes the room entirely; in both cases it returns the
vacated room id and the departing member's name; it returns `none` (with
the ledger unchanged) when the connection belongs to no room. -/
theorem leave_spec_cases (s : Ledger) (socketId : String) :
    ((∀ p ∈ s, ∀ u ∈ p.2.users, u.socketId ≠ socketId) → leave s socketId = (none, s))
    ∧ (∀ (pre post : Ledger) (roomId : String) (room : Room) (a b : RoomUser),
        s = pre ++ (roomId, room) :: post →
        (∀ p ∈ pre, ∀ u ∈ p.2.users, u.socketId ≠ socketId) →
        room.users = [a, b] → a.socketId = socketId →
        leave s socketId =
          (some (roomId, a.name), pre ++ (roomId, { room with users := [b] }) :: post))
    ∧ (∀ (pre post : Ledger) (roomId : String) (room : Room) (a b : RoomUser),
        s = pre ++ (roomId, room) :: post →
        (∀ p ∈ pre, ∀ u ∈ p.2.users, u.socketId ≠ socketId) →
        room.users = [a, b] → a.socketId ≠ socketId → b.socketId = socketId →
        leave s socketId =
          (some (roomId, b.name), pre ++ (roomId, { room with users := [a] }) :: post))
    ∧ (∀ (pre post : Ledger) (roomId : String) (room : Room) (a : RoomUser),
        s = pre ++ (roomId, room) :: post →
        (∀ p ∈ pre, ∀ u ∈ p.2.users, u.socketId ≠ socketId) →
        room.users = [a] → a.socketId = socketId →
        leave s socketId = (some (roomId, a.name), pre ++ post)) := by
  refine ⟨?_, ?_, ?_, ?_⟩
  · intro h
    exact leave_none h
  · intro pre post roomId room a b hs hpre husers ha
    subst hs
    rw [leave_append ((roomId, room) :: post) socketId hpre]
    have ha' : (a.socketId == socketId) = true := by simpa using ha
    simp [leave, removeUser, husers, ha']
  · intro pre post roomId room a b hs hpre husers ha hb
    subst hs
    rw [leave_append ((roomId, room) :: post) socketId hpre]
    have ha' : (a.socketId == socketId) = false := by simpa using ha
    have hb' : (b.socketId == socketId) = true := by simpa using hb
    simp [leave, removeUser, husers, ha', hb']
  · intro pre post roomId room a hs hpre husers ha
    subst hs
    rw [leave_append ((roomId, room) :: post) socketId hpre]
    have ha' : (a.socketId == socketId) = true := by simpa using ha
    simp [leave, removeUser, husers, ha']

/-- Witness for C7: leaving a 2-member room keeps the room with the peer;
leaving a 1-member room deletes it. -/
theorem leave_spec_cases_witness :
    leave [("roomaaaa", { users := [{ socketId := "sockA", name := "alice" },
                                    { socketId := "sockB", name := "bob" }],
                          token := "t", createdAt := 0, lastActivity := 0 })] "sockA" =
      (some ("roomaaaa", "alice"),
       [("roomaaaa", { users := [{ socketId := "sockB", name := "bob" }],
                       token := "t", createdAt := 0, lastActivity := 0 })])
    ∧ leave [("roomcccc", { users := [{ socketId := "sockC", name := "carol" }],
                            token := "t", createdAt := 0, lastActivity := 0 })] "sockC" =
      (some ("roomcccc", "carol"), []) :=
  ⟨(leave_spec_cases [("roomaaaa", { users := [{ socketId := "sockA", name := "alice" },
                                               { socketId := "sockB", name := "bob" }],
                                     token := "t", createdAt := 0, lastActivity := 0 })]
      "sockA").2.1 [] []
      "roomaaaa" { users := [{ socketId := "sockA", name := "alice" },
                             { socketId := "sockB", name := "bob" }],
                   token := "t", createdAt := 0, lastActivity := 0 }
      { socketId := "sockA", name := "alice" } { socketId := "sockB", name := "bob" }
      rfl (by simp) rfl rfl,
   (leave_spec_cases [("roomcccc", { users := [{ socketId := "sockC", name := "carol" }],
                                     token := "t", createdAt := 0, lastActivity := 0 })]
      "sockC").2.2.2 [] []
      "roomcccc" { users := [{ socketId := "sockC", name := "carol" }],
                   token := "t", createdAt := 0, lastActivity := 0 }
      { socketId := "sockC", name := "carol" }
      rfl (by simp) rfl rfl⟩

/-! ## C10 — one connection can inhabit two rooms at once -/

lemma lookupRoom_setKey_ne {s : Ledger} {k : String} {v : Room} {k' : String}
    (h : k' ≠ k) : lookupRoom (setKey s k v) k' = lookupRoom s k' := by
  induction s with
  | nil => rfl
  | cons q rest ih =>
    unfold setKey
    by_cases hq : (q.1 == k) = true
    · simp only [hq, if_true]
      have hq1 : q.1 = k := by simpa using hq
      have hk : (k == k') = false := by
        simpa using fun e => h e.symm
      have hq' : (q.1 == k') = false := by rw [hq1]; exact hk
      simp only [lookupRoom, hk, hq', Bool.false_eq_true, if_false]
    · simp only [hq, Bool.false_eq_true, if_false]
      simp only [lookupRoom]
      by_cases hq' : (q.1 == k') = true
      · simp [hq']
      · simp only [hq', Bool.false_eq_true, if_false]
        exact ih

lemma lookupRoom_append_single_ne {s : Ledger} {k k' : String} {v : Room}
    (h : k' ≠ k) : lookupRoom (s ++ [(k, v)]) k' = lookupRoom s k' := by
  induction s with
  | nil =>
    have hk : (k == k') = false := by
      simpa using fun e => h e.symm
    simp [lookupRoom, hk]
  | cons q rest ih =>
    simp only [List.cons_append, lookupRoom]
    by_cases hq : (q.1 == k') = true
    · simp [hq]
    · simp only [hq, Bool.false_eq_true, if_false]
      exact ih

/-- C10: `createOrJoin` on one room id never changes any other room's
membership — so a single connection id can be a member of two distinct
rooms at once — and `leave` for such a connection removes it from exactly
one room (the first in ledger order), leaving its membership in the other
room intact. -/
theorem multi_room_membership :
    (∀ (genToken : String → String) (s : Ledger) (roomId socketId name : String) (now : Int)
        (roomId' socketId' : String), roomId' ≠ roomId →
        isMember (createOrJoin genToken s roomId socketId name now).2 roomId' socketId' =
          isMember s roomId' socketId')
    ∧ (isMember (createOrJoin (fun _ => "t")
          (createOrJoin (fun _ => "t") [] "roomaaaa" "sockA" "alice" 0).2
          "roombbbb" "sockA" "alice" 1).2 "roomaaaa" "sockA" = true
      ∧ isMember (createOrJoin (fun _ => "t")
          (createOrJoin (fun _ => "t") [] "roomaaaa" "sockA" "alice" 0).2
          "roombbbb" "sockA" "alice" 1).2 "roombbbb" "sockA" = true
      ∧ (leave (createOrJoin (fun _ => "t")
          (createOrJoin (fun _ => "t") [] "roomaaaa" "sockA" "alice" 0).2
          "roombbbb" "sockA" "alice" 1).2 "sockA").1 = some ("roomaaaa", "alice")
      ∧ isMember ((leave (createOrJoin (fun _ => "t")
          (createOrJoin (fun _ => "t") [] "roomaaaa" "sockA" "alice" 0).2
          "roombbbb" "sockA" "alice" 1).2 "sockA").2) "roomaaaa" "sockA" = false
      ∧ isMember ((leave (createOrJoin (fun _ => "t")
          (createOrJoin (fun _ => "t") [] "roomaaaa" "sockA" "alice" 0).2
          "roombbbb" "sockA" "alice" 1).2 "sockA").2) "roombbbb" "sockA" = true) := by
  constructor
  · intro g s roomId socketId name now roomId' socketId' hne
    unfold createOrJoin
    cases hlook : lookupRoom s roomId with
    | none =>
      unfold isMember
      rw [lookupRoom_append_single_ne hne]
    | some room =>
      by_cases hany : room.users.any (fun u => u.socketId == socketId) = true
      · simp only [hany, if_true]
        unfold isMember
        rw [lookupRoom_setKey_ne hne]
      · simp only [hany, Bool.false_eq_true, if_false]
        by_cases hfull : 2 ≤ room.users.length
        · simp [hfull]
        · simp only [hfull, if_false]
          unfold isMember
          rw [lookupRoom_setKey_ne hne]
  · refine ⟨?_, ?_, ?_, ?_, ?_⟩ <;> decide

/-- Witness for C10: joining a fresh room does not affect membership in a
different room id. -/
theorem multi_room_membership_witness :
    isMember (createOrJoin (fun _ => "t") [] "roomaaaa" "sockA" "alice" 0).2
        "roombbbb" "sockB" =
      isMember [] "roombbbb" "sockB" :=
  multi_room_membership.1 (fun _ => "t") [] "roomaaaa" "sockA" "alice" 0
    "roombbbb" "sockB" (by decide)
